import Mathlib

/-!
Verification of the DeepSeek content-block translator
(`convertToV1FromDeepSeek` in
`libs/langchain-core/src/messages/block_translators/deepseek.ts`)
against its natural-language specification.

The embedding models JavaScript runtime values with a small inductive
type `JSValue`, the raw AI message with `AIMessage`, and the produced
standardized content blocks with `ContentBlock`.
-/

/-- A JavaScript runtime value, as far as the translator inspects it:
strings, arrays, plain objects (association lists of fields), `null`,
`undefined`, and an opaque remainder (numbers, booleans, functions, ...)
that the translator never looks inside. -/
inductive JSValue where
  | str (s : String)
  | arr (elems : List JSValue)
  | obj (fields : List (String × JSValue))
  | null
  | undefined
  | other (tag : String)

/-- Modelled from the spec: `_isString` from `block_translators/utils.ts`
(the file is not among the given sources) is the JavaScript check
`typeof value === "string"`. -/
def _isString (v : JSValue) : Bool :=
  match v with
  | .str _ => true
  | _ => false

/-- Modelled from the spec: `_isObject` from `block_translators/utils.ts`
(the file is not among the given sources) is the JavaScript check
`typeof value === "object" && value !== null`; arrays satisfy it,
`null` and `undefined` do not. -/
def _isObject (v : JSValue) : Bool :=
  match v with
  | .obj _ => true
  | .arr _ => true
  | _ => false

/-- JavaScript property read `v[k]` for the values the translator reads
fields from: a present field of a plain object yields its value, an
absent field yields `undefined`, and any non-object receiver modelled
here yields `undefined` (the translator only reads a field after an
`_isObject` guard, so the throwing receivers `null` and `undefined`
are never dereferenced; see `convertToV1FromDeepSeekE`). -/
def getField (v : JSValue) (k : String) : JSValue :=
  match v with
  | .obj fields =>
    match fields.lookup k with
    | some w => w
    | none => .undefined
  | _ => .undefined

/-- One entry of `message.tool_calls`: the `id` field is optional in the
`ToolCall` type, `name` is a string and `args` an object. -/
structure ToolCall where
  id : Option String
  name : String
  args : List (String × JSValue)

/-- The fields of `AIMessage` / `AIMessageChunk` that
`convertToV1FromDeepSeek` reads: `content` (a string, an array, or any
other runtime value), the `additional_kwargs` bag (any runtime value),
and the optional `tool_calls` list (`none` models an absent field). -/
structure AIMessage where
  content : JSValue
  additional_kwargs : JSValue
  tool_calls : Option (List ToolCall)

/-- A standardized v1 content block as produced by the translator:
a `reasoning` block, a `text` block, a passthrough element forwarded
unchanged from an array-valued `content`, or a `tool_call` block. -/
inductive ContentBlock where
  | reasoning (reasoning : String)
  | text (text : String)
  | passthrough (v : JSValue)
  | tool_call (id : Option String) (name : String) (args : List (String × JSValue))

/-- The reasoning step of `convertToV1FromDeepSeek` (deepseek.ts lines
41-50): push one `reasoning` block when `additional_kwargs` is an
object whose `reasoning_content` field is a string of positive length
(the inner match is guarded by the `_isString` test, exactly as the
source condition guards the push). -/
def reasoningBlocksOf (message : AIMessage) : List ContentBlock :=
  if _isObject message.additional_kwargs
      && _isString (getField message.additional_kwargs "reasoning_content") then
    match getField message.additional_kwargs "reasoning_content" with
    | .str s => if s.length > 0 then [.reasoning s] else []
    | _ => []
  else []

/-- The content step of `convertToV1FromDeepSeek` (deepseek.ts lines
53-63): one `text` block for string `content`, each array element
forwarded unchanged for array `content`, nothing otherwise. -/
def contentBlocksOf (message : AIMessage) : List ContentBlock :=
  match message.content with
  | .str s => [.text s]
  | .arr elems => elems.map .passthrough
  | _ => []

/-- The tool-call step of `convertToV1FromDeepSeek` (deepseek.ts lines
66-73): one `tool_call` block per entry of `message.tool_calls ?? []`,
copying `id`, `name` and `args` through. -/
def toolCallBlocksOf (message : AIMessage) : List ContentBlock :=
  (message.tool_calls.getD []).map fun tc => .tool_call tc.id tc.name tc.args

/-- `convertToV1FromDeepSeek` from `deepseek.ts`: the source pushes the
three block groups into one array in order, which is the concatenation
of the three segments above. -/
def convertToV1FromDeepSeek (message : AIMessage) : List ContentBlock :=
  reasoningBlocksOf message ++ contentBlocksOf message ++ toolCallBlocksOf message

/-- Boolean test: the block is a `reasoning` block. -/
def isReasoning (b : ContentBlock) : Bool :=
  match b with
  | .reasoning _ => true
  | _ => false

/-- Boolean test: the block is a `text` block. -/
def isText (b : ContentBlock) : Bool :=
  match b with
  | .text _ => true
  | _ => false

/-- Boolean test: the block is a passthrough block forwarded from an
array-valued `content`. -/
def isPassthrough (b : ContentBlock) : Bool :=
  match b with
  | .passthrough _ => true
  | _ => false

/-- Boolean test: the block is a `tool_call` block. -/
def isToolCall (b : ContentBlock) : Bool :=
  match b with
  | .tool_call _ _ _ => true
  | _ => false

/-- Replace or add field `k` of an object value (used only by the
spec-modelled merge below). -/
def setField (v : JSValue) (k : String) (w : JSValue) : JSValue :=
  match v with
  | .obj fields =>
    if (fields.lookup k).isSome then
      .obj (fields.map fun p => if p.1 == k then (k, w) else p)
    else
      .obj (fields ++ [(k, w)])
  | _ => .obj [(k, w)]

/-- Modelled from the spec: the chunk merge operation (the `concat` of
`AIMessageChunk`, defined in `ai.ts`, which is not among the given
sources). The spec fixes the semantics this system depends on: string
`content` fields concatenate; the `reasoning_content` entries of
`additional_kwargs` concatenate as plain strings with no separator, a
side missing the field treated as the empty string, so once either side
has reasoning the merged result has reasoning; other metadata carries
through. Cases the spec leaves to the external contract (non-string
`content`, tool-call stitching) are modelled by keeping the left
`content` and concatenating the tool-call lists. -/
def mergeChunks (a b : AIMessage) : AIMessage :=
  let mergedContent : JSValue :=
    match a.content, b.content with
    | .str s1, .str s2 => .str (s1 ++ s2)
    | c1, _ => c1
  let ra : Option String :=
    match getField a.additional_kwargs "reasoning_content" with
    | .str s => some s
    | _ => none
  let rb : Option String :=
    match getField b.additional_kwargs "reasoning_content" with
    | .str s => some s
    | _ => none
  let mergedKwargs : JSValue :=
    match ra, rb with
    | none, none => a.additional_kwargs
    | _, _ =>
      setField (if _isObject a.additional_kwargs then a.additional_kwargs else .obj [])
        "reasoning_content" (.str (ra.getD "" ++ rb.getD ""))
  let mergedToolCalls : Option (List ToolCall) :=
    match a.tool_calls, b.tool_calls with
    | none, none => none
    | ta, tb => some (ta.getD [] ++ tb.getD [])
  ⟨mergedContent, mergedKwargs, mergedToolCalls⟩

/-- JavaScript property read with explicit exception propagation: a
read on a `null` or `undefined` receiver throws a TypeError; every
other receiver yields the value `getField` describes. -/
def getFieldE (v : JSValue) (k : String) : Except String JSValue :=
  match v with
  | .null => .error "TypeError: cannot read properties of null"
  | .undefined => .error "TypeError: cannot read properties of undefined"
  | _ => .ok (getField v k)

/-- `convertToV1FromDeepSeek` re-traced with explicit JavaScript
exception propagation: the property read of `reasoning_content` goes
through `getFieldE`, which raises on `null` and `undefined` receivers,
and the short-circuit of the `&&` chain is kept (the read happens only
after the `_isObject` guard passed). A `.error` result would model the
source function throwing. -/
def convertToV1FromDeepSeekE (message : AIMessage) :
    Except String (List ContentBlock) := do
  let reasoningBlocks : List ContentBlock ←
    if _isObject message.additional_kwargs then do
      let rc ← getFieldE message.additional_kwargs "reasoning_content"
      match rc with
      | .str s => pure (if s.length > 0 then [.reasoning s] else [])
      | _ => pure []
    else pure []
  pure (reasoningBlocks ++ contentBlocksOf message ++ toolCallBlocksOf message)

/-- The `StandardContentBlockTranslator` record of `deepseek.ts`: one
translation function for complete messages and one for streaming
chunks. -/
structure StandardContentBlockTranslator where
  translateContent : AIMessage → List ContentBlock
  translateContentChunk : AIMessage → List ContentBlock

/-- `ChatDeepSeekTranslator` from `deepseek.ts` (lines 78-81): both
fields are `convertToV1FromDeepSeek`. -/
def ChatDeepSeekTranslator : StandardContentBlockTranslator :=
  ⟨convertToV1FromDeepSeek, convertToV1FromDeepSeek⟩

/-- A field read can only yield a string when the receiver is a plain
object, hence an `_isObject` value. -/
theorem getField_str_isObject {v : JSValue} {k s : String}
    (h : getField v k = JSValue.str s) : _isObject v = true := by
  cases v <;> simp [getField, _isObject] at h ⊢

/-- The reasoning step depends only on the value the field read yields:
a string of positive length produces its block, anything else produces
nothing. -/
theorem reasoningBlocksOf_eq (m : AIMessage) :
    reasoningBlocksOf m =
      match getField m.additional_kwargs "reasoning_content" with
      | JSValue.str s => if s.length > 0 then [ContentBlock.reasoning s] else []
      | _ => [] := by
  cases hv : getField m.additional_kwargs "reasoning_content" <;>
    simp [reasoningBlocksOf, hv, _isString]
  case str s =>
    simp [getField_str_isObject hv]

/-- The reasoning step yields nothing or exactly one reasoning block
carrying a nonempty string. -/
theorem reasoningBlocksOf_cases (m : AIMessage) :
    reasoningBlocksOf m = [] ∨
      ∃ s : String, s.length > 0 ∧
        reasoningBlocksOf m = [ContentBlock.reasoning s] := by
  rw [reasoningBlocksOf_eq]
  cases getField m.additional_kwargs "reasoning_content"
  case str s =>
    by_cases h : s.length > 0
    · exact Or.inr ⟨s, h, by simp [h]⟩
    · exact Or.inl (by simp [h])
  all_goals exact Or.inl rfl

/-- Every block the reasoning step yields is a reasoning block. -/
theorem mem_reasoningBlocksOf {m : AIMessage} {b : ContentBlock}
    (h : b ∈ reasoningBlocksOf m) : ∃ s, b = ContentBlock.reasoning s := by
  rcases reasoningBlocksOf_cases m with h0 | ⟨s, _, h0⟩ <;> rw [h0] at h
  · cases h
  · simp at h
    exact ⟨s, h⟩

/-- Every block the content step yields is a text block or a
passthrough block. -/
theorem mem_contentBlocksOf {m : AIMessage} {b : ContentBlock}
    (h : b ∈ contentBlocksOf m) :
    (∃ t, b = ContentBlock.text t) ∨ ∃ v, b = ContentBlock.passthrough v := by
  unfold contentBlocksOf at h
  cases hc : m.content <;> rw [hc] at h <;> simp at h
  case str s => exact Or.inl ⟨s, h⟩
  case arr elems =>
    rcases h with ⟨v, _, hv⟩
    exact Or.inr ⟨v, hv.symm⟩

/-- Every block the tool-call step yields is a tool-call block. -/
theorem mem_toolCallBlocksOf {m : AIMessage} {b : ContentBlock}
    (h : b ∈ toolCallBlocksOf m) :
    ∃ i n a, b = ContentBlock.tool_call i n a := by
  unfold toolCallBlocksOf at h
  simp at h
  rcases h with ⟨tc, _, htc⟩
  exact ⟨tc.id, tc.name, tc.args, htc.symm⟩

/-- Whenever the reasoning step yields a block, the field read yields
the nonempty string the block carries. -/
theorem reasoning_field_of_mem {m : AIMessage} {b : ContentBlock}
    (hb : b ∈ reasoningBlocksOf m) :
    ∃ s, getField m.additional_kwargs "reasoning_content" = JSValue.str s ∧
      s.length > 0 ∧ b = ContentBlock.reasoning s := by
  have he := reasoningBlocksOf_eq m
  cases hv : getField m.additional_kwargs "reasoning_content" <;>
      rw [hv] at he <;> rw [he] at hb
  case str s =>
    by_cases h : s.length > 0
    · simp [h] at hb
      exact ⟨s, rfl, h, hb⟩
    · simp [h] at hb
  all_goals simp at hb

/-- The reasoning step never yields a text block. -/
theorem filter_isText_reasoningBlocksOf (m : AIMessage) :
    (reasoningBlocksOf m).filter isText = [] :=
  List.filter_eq_nil_iff.mpr fun b hb => by
    rcases mem_reasoningBlocksOf hb with ⟨s, rfl⟩
    simp [isText]

/-- The tool-call step never yields a text block. -/
theorem filter_isText_toolCallBlocksOf (m : AIMessage) :
    (toolCallBlocksOf m).filter isText = [] :=
  List.filter_eq_nil_iff.mpr fun b hb => by
    rcases mem_toolCallBlocksOf hb with ⟨i, n, a, rfl⟩
    simp [isText]

/-- The reasoning step never yields a passthrough block. -/
theorem filter_isPassthrough_reasoningBlocksOf (m : AIMessage) :
    (reasoningBlocksOf m).filter isPassthrough = [] :=
  List.filter_eq_nil_iff.mpr fun b hb => by
    rcases mem_reasoningBlocksOf hb with ⟨s, rfl⟩
    simp [isPassthrough]

/-- The tool-call step never yields a passthrough block. -/
theorem filter_isPassthrough_toolCallBlocksOf (m : AIMessage) :
    (toolCallBlocksOf m).filter isPassthrough = [] :=
  List.filter_eq_nil_iff.mpr fun b hb => by
    rcases mem_toolCallBlocksOf hb with ⟨i, n, a, rfl⟩
    simp [isPassthrough]

/-- The reasoning step never yields a tool-call block. -/
theorem filter_isToolCall_reasoningBlocksOf (m : AIMessage) :
    (reasoningBlocksOf m).filter isToolCall = [] :=
  List.filter_eq_nil_iff.mpr fun b hb => by
    rcases mem_reasoningBlocksOf hb with ⟨s, rfl⟩
    simp [isToolCall]

/-- The content step never yields a tool-call block. -/
theorem filter_isToolCall_contentBlocksOf (m : AIMessage) :
    (contentBlocksOf m).filter isToolCall = [] :=
  List.filter_eq_nil_iff.mpr fun b hb => by
    rcases mem_contentBlocksOf hb with ⟨t, rfl⟩ | ⟨v, rfl⟩ <;> simp [isToolCall]

/-- C1: `convertToV1FromDeepSeek` emits a reasoning block iff
`additional_kwargs.reasoning_content` is a string value of non-zero
length (the field read yields `undefined` when the bag is absent, null,
non-object, or lacks the field, and is never a string when the value is
null or of another type); when emitted, the reasoning block is the
first output element and carries the string verbatim; otherwise no
reasoning block appears anywhere in the output. -/
theorem reasoning_block_iff (m : AIMessage) :
    (∀ s : String,
      getField m.additional_kwargs "reasoning_content" = JSValue.str s →
      s.length > 0 →
      ∃ rest, convertToV1FromDeepSeek m = ContentBlock.reasoning s :: rest) ∧
    ((∀ s : String,
        getField m.additional_kwargs "reasoning_content" = JSValue.str s →
        s.length = 0) →
      ∀ b ∈ convertToV1FromDeepSeek m, isReasoning b = false) := by
  constructor
  · intro s hs hlen
    refine ⟨contentBlocksOf m ++ toolCallBlocksOf m, ?_⟩
    unfold convertToV1FromDeepSeek
    rw [reasoningBlocksOf_eq, hs]
    simp [hlen]
  · intro hno b hb
    unfold convertToV1FromDeepSeek at hb
    simp only [List.mem_append] at hb
    rcases hb with (hb | hb) | hb
    · rcases reasoning_field_of_mem hb with ⟨s, hs, hpos, rfl⟩
      have := hno s hs
      omega
    · rcases mem_contentBlocksOf hb with ⟨t, rfl⟩ | ⟨v, rfl⟩ <;> rfl
    · rcases mem_toolCallBlocksOf hb with ⟨i, n, a, rfl⟩
      rfl

/-- Witness for C1: a message whose `reasoning_content` is the
nonempty string R starts with its reasoning block, and a message whose
`reasoning_content` is the empty string has no reasoning block. -/
theorem reasoning_block_iff_witness :
    (∃ rest,
      convertToV1FromDeepSeek
        (AIMessage.mk (JSValue.str "hi")
          (JSValue.obj [("reasoning_content", JSValue.str "R")]) none) =
        ContentBlock.reasoning "R" :: rest) ∧
    (∀ b ∈ convertToV1FromDeepSeek
        (AIMessage.mk (JSValue.str "hi")
          (JSValue.obj [("reasoning_content", JSValue.str "")]) none),
      isReasoning b = false) :=
  ⟨(reasoning_block_iff _).1 "R" rfl (by decide),
   (reasoning_block_iff _).2 (fun s hs => by cases hs; rfl)⟩

/-- C2: for string `content` S the output contains exactly one text
block and it carries S verbatim; it sits immediately after the
reasoning block when one is emitted and first otherwise; and when the
message additionally has no active reasoning string and no tool calls,
the output is exactly the one-element sequence holding that text block
(so `content` equal to the empty string yields the one-element sequence
with the empty text block, never the empty sequence). -/
theorem text_block_exact (m : AIMessage) (S : String)
    (h : m.content = JSValue.str S) :
    (convertToV1FromDeepSeek m).filter isText = [ContentBlock.text S] ∧
    ((∃ s, getField m.additional_kwargs "reasoning_content" = JSValue.str s ∧
        s.length > 0) →
      ∃ r, (convertToV1FromDeepSeek m).take 2 =
        [ContentBlock.reasoning r, ContentBlock.text S]) ∧
    ((∀ s : String,
        getField m.additional_kwargs "reasoning_content" = JSValue.str s →
        s.length = 0) →
      (convertToV1FromDeepSeek m).head? = some (ContentBlock.text S) ∧
      (m.tool_calls.getD [] = [] →
        convertToV1FromDeepSeek m = [ContentBlock.text S])) := by
  have hc : contentBlocksOf m = [ContentBlock.text S] := by
    unfold contentBlocksOf
    rw [h]
  refine ⟨?_, ?_, ?_⟩
  · unfold convertToV1FromDeepSeek
    rw [hc, List.filter_append, List.filter_append,
      filter_isText_reasoningBlocksOf, filter_isText_toolCallBlocksOf]
    simp [isText]
  · rintro ⟨s, hs, hlen⟩
    have hr : reasoningBlocksOf m = [ContentBlock.reasoning s] := by
      rw [reasoningBlocksOf_eq, hs]
      simp [hlen]
    refine ⟨s, ?_⟩
    unfold convertToV1FromDeepSeek
    rw [hr, hc]
    rfl
  · intro hno
    have h0 : reasoningBlocksOf m = [] := by
      rcases reasoningBlocksOf_cases m with h0 | ⟨r, hr, h0⟩
      · exact h0
      · exfalso
        have hmem : ContentBlock.reasoning r ∈ reasoningBlocksOf m := by
          rw [h0]
          simp
        rcases reasoning_field_of_mem hmem with ⟨s, hs, hpos, _⟩
        have := hno s hs
        omega
    constructor
    · unfold convertToV1FromDeepSeek
      rw [h0, hc]
      rfl
    · intro htc
      unfold convertToV1FromDeepSeek toolCallBlocksOf
      rw [h0, hc, htc]
      rfl

/-- Witness for C2: the message with empty-string `content`, no
reasoning and no tool calls translates to exactly the one-element
sequence holding the empty text block. -/
theorem text_block_exact_witness :
    (AIMessage.mk (JSValue.str "") (JSValue.obj []) none).content =
      JSValue.str "" ∧
    convertToV1FromDeepSeek (AIMessage.mk (JSValue.str "") (JSValue.obj []) none) =
      [ContentBlock.text ""] :=
  ⟨rfl, ((text_block_exact _ "" rfl).2.2 (fun _ hs => by
    simp [getField] at hs)).2 rfl⟩

/-- C3: for array `content` with elements `elems`, the output contains
exactly those elements, forwarded unchanged and in order as passthrough
blocks, sitting between the reasoning block(s) and the tool-call
blocks; no other passthrough block appears. -/
theorem passthrough_blocks (m : AIMessage) (elems : List JSValue)
    (h : m.content = JSValue.arr elems) :
    (∃ pre post,
      convertToV1FromDeepSeek m =
        pre ++ elems.map ContentBlock.passthrough ++ post ∧
      (∀ b ∈ pre, isReasoning b = true) ∧
      (∀ b ∈ post, isToolCall b = true)) ∧
    (convertToV1FromDeepSeek m).filter isPassthrough =
      elems.map ContentBlock.passthrough := by
  have hc : contentBlocksOf m = elems.map ContentBlock.passthrough := by
    unfold contentBlocksOf
    rw [h]
  constructor
  · refine ⟨reasoningBlocksOf m, toolCallBlocksOf m, ?_, ?_, ?_⟩
    · unfold convertToV1FromDeepSeek
      rw [hc]
    · intro b hb
      rcases mem_reasoningBlocksOf hb with ⟨s, rfl⟩
      rfl
    · intro b hb
      rcases mem_toolCallBlocksOf hb with ⟨i, n, a, rfl⟩
      rfl
  · unfold convertToV1FromDeepSeek
    rw [hc, List.filter_append, List.filter_append,
      filter_isPassthrough_reasoningBlocksOf,
      filter_isPassthrough_toolCallBlocksOf]
    simp only [List.nil_append, List.append_nil]
    exact List.filter_eq_self.mpr fun b hb => by
      rcases List.mem_map.mp hb with ⟨v, _, rfl⟩
      rfl

/-- Witness for C3: a two-element content array, one element of it not
even block-shaped, is forwarded unchanged and in order. -/
theorem passthrough_blocks_witness :
    (convertToV1FromDeepSeek
      (AIMessage.mk
        (JSValue.arr [JSValue.null, JSValue.obj [("type", JSValue.str "text")]])
        JSValue.undefined none)).filter isPassthrough =
      [ContentBlock.passthrough JSValue.null,
       ContentBlock.passthrough (JSValue.obj [("type", JSValue.str "text")])] :=
  (passthrough_blocks _
    [JSValue.null, JSValue.obj [("type", JSValue.str "text")]] rfl).2

/-- C4: the tool-call blocks are the image of `tool_calls ?? []` under
the per-entry copy of `id`, `name` and `args`, they close the output
sequence, and no tool-call block occurs anywhere earlier; an absent
`tool_calls` list therefore yields zero tool-call blocks. -/
theorem tool_call_blocks_last (m : AIMessage) :
    ∃ pre,
      convertToV1FromDeepSeek m =
        pre ++ (m.tool_calls.getD []).map
          (fun tc => ContentBlock.tool_call tc.id tc.name tc.args) ∧
      (∀ b ∈ pre, isToolCall b = false) ∧
      (convertToV1FromDeepSeek m).filter isToolCall =
        (m.tool_calls.getD []).map
          (fun tc => ContentBlock.tool_call tc.id tc.name tc.args) := by
  refine ⟨reasoningBlocksOf m ++ contentBlocksOf m, ?_, ?_, ?_⟩
  · unfold convertToV1FromDeepSeek toolCallBlocksOf
    rw [List.append_assoc]
  · intro b hb
    rcases List.mem_append.mp hb with hb | hb
    · rcases mem_reasoningBlocksOf hb with ⟨s, rfl⟩
      rfl
    · rcases mem_contentBlocksOf hb with ⟨t, rfl⟩ | ⟨v, rfl⟩ <;> rfl
  · unfold convertToV1FromDeepSeek toolCallBlocksOf
    rw [List.filter_append, List.filter_append,
      filter_isToolCall_reasoningBlocksOf, filter_isToolCall_contentBlocksOf]
    simp only [List.nil_append]
    exact List.filter_eq_self.mpr fun b hb => by
      rcases List.mem_map.mp hb with ⟨tc, _, rfl⟩
      rfl

/-- C5: for every message the output is the concatenation, in this
fixed order, of at most one reasoning block, then the content-derived
blocks, then the tool-call blocks; no block of a later category ever
precedes or interleaves with one of an earlier category. -/
theorem fixed_category_order (m : AIMessage) :
    ∃ r c t, convertToV1FromDeepSeek m = r ++ c ++ t ∧
      r.length ≤ 1 ∧
      (∀ b ∈ r, isReasoning b = true) ∧
      (∀ b ∈ c, isText b = true ∨ isPassthrough b = true) ∧
      ∀ b ∈ t, isToolCall b = true := by
  refine ⟨reasoningBlocksOf m, contentBlocksOf m, toolCallBlocksOf m,
    rfl, ?_, ?_, ?_, ?_⟩
  · rcases reasoningBlocksOf_cases m with h0 | ⟨s, _, h0⟩ <;> rw [h0] <;> simp
  · intro b hb
    rcases mem_reasoningBlocksOf hb with ⟨s, rfl⟩
    rfl
  · intro b hb
    rcases mem_contentBlocksOf hb with ⟨t0, rfl⟩ | ⟨v, rfl⟩
    · exact Or.inl rfl
    · exact Or.inr rfl
  · intro b hb
    rcases mem_toolCallBlocksOf hb with ⟨i, n, a, rfl⟩
    rfl

/-- C6: merging the chunk with empty content and reasoning "Part 1"
into the chunk with content "Answer" and reasoning " Part 2", then
translating the merged chunk, yields exactly the reasoning block
"Part 1 Part 2" followed by the text block "Answer". -/
theorem merge_then_translate :
    convertToV1FromDeepSeek
      (mergeChunks
        (AIMessage.mk (JSValue.str "")
          (JSValue.obj [("reasoning_content", JSValue.str "Part 1")]) none)
        (AIMessage.mk (JSValue.str "Answer")
          (JSValue.obj [("reasoning_content", JSValue.str " Part 2")]) none)) =
      [ContentBlock.reasoning "Part 1 Part 2", ContentBlock.text "Answer"] := by
  rfl

/-- On a receiver passing the `_isObject` guard, the exception-aware
property read never throws and agrees with the pure read. -/
theorem getFieldE_of_isObject {v : JSValue} (h : _isObject v = true)
    (k : String) : getFieldE v k = Except.ok (getField v k) := by
  cases v <;> first | rfl | simp [_isObject] at h

/-- C7: the exception-tracking re-trace of the translator never
throws: on every input, including absent or ill-typed kwargs bags and
absent tool calls, it returns `.ok` of exactly what the pure
translator returns. -/
theorem translate_never_throws (m : AIMessage) :
    convertToV1FromDeepSeekE m = Except.ok (convertToV1FromDeepSeek m) := by
  unfold convertToV1FromDeepSeekE convertToV1FromDeepSeek reasoningBlocksOf
  by_cases h : _isObject m.additional_kwargs = true
  · simp only [h, if_true, getFieldE_of_isObject h]
    cases hv : getField m.additional_kwargs "reasoning_content" <;> rfl
  · simp only [Bool.not_eq_true] at h
    simp only [h, Bool.false_eq_true, if_false, Bool.false_and]
    rfl

/-- C8: translation is deterministic; two calls on the same immutable
message value yield structurally equal block sequences. -/
theorem translate_deterministic (m : AIMessage) :
    convertToV1FromDeepSeek m = convertToV1FromDeepSeek m := rfl

/-- C9: when `content` is neither a string nor an array, no
content-derived block is emitted: the output is the (at most one)
reasoning block followed by the tool-call blocks, and can be the empty
sequence. -/
theorem non_string_non_array_content (m : AIMessage)
    (h1 : ∀ s, m.content ≠ JSValue.str s)
    (h2 : ∀ l, m.content ≠ JSValue.arr l) :
    ∃ r, (r = [] ∨ ∃ s, r = [ContentBlock.reasoning s]) ∧
      convertToV1FromDeepSeek m =
        r ++ (m.tool_calls.getD []).map
          (fun tc => ContentBlock.tool_call tc.id tc.name tc.args) := by
  have hc : contentBlocksOf m = [] := by
    unfold contentBlocksOf
    cases hv : m.content
    case str s => exact absurd hv (h1 s)
    case arr l => exact absurd hv (h2 l)
    all_goals rfl
  rcases reasoningBlocksOf_cases m with h0 | ⟨s, _, h0⟩
  · refine ⟨[], Or.inl rfl, ?_⟩
    unfold convertToV1FromDeepSeek toolCallBlocksOf
    rw [h0, hc]
    rfl
  · refine ⟨[ContentBlock.reasoning s], Or.inr ⟨s, rfl⟩, ?_⟩
    unfold convertToV1FromDeepSeek toolCallBlocksOf
    rw [h0, hc]
    rfl

/-- Witness for C9: a message with `undefined` content, an empty
kwargs bag and no tool calls translates to the empty sequence. -/
theorem non_string_non_array_content_witness :
    (∃ r, (r = [] ∨ ∃ s, r = [ContentBlock.reasoning s]) ∧
      convertToV1FromDeepSeek
          (AIMessage.mk JSValue.undefined (JSValue.obj []) none) =
        r ++ ((AIMessage.mk JSValue.undefined (JSValue.obj []) none).tool_calls.getD
          []).map (fun tc => ContentBlock.tool_call tc.id tc.name tc.args)) ∧
    convertToV1FromDeepSeek
      (AIMessage.mk JSValue.undefined (JSValue.obj []) none) = [] :=
  ⟨non_string_non_array_content _ (fun _ h => nomatch h) (fun _ h => nomatch h),
   rfl⟩

/-- C10: the registered translator record uses the same function for
complete messages and for streaming chunks, so translating any message
state both ways agrees. -/
theorem translator_content_eq_chunk :
    ChatDeepSeekTranslator.translateContent = convertToV1FromDeepSeek ∧
    ChatDeepSeekTranslator.translateContentChunk = convertToV1FromDeepSeek ∧
    ∀ m, ChatDeepSeekTranslator.translateContent m =
      ChatDeepSeekTranslator.translateContentChunk m :=
  ⟨rfl, rfl, fun _ => rfl⟩
